import Mathlib

/- A shallow embedding of the CAFFEE editor core (src/caffee.py): the text
buffer and its mutation primitives, the snapshot history mechanism
(save_history / apply_history / undo / redo), selection, cut/copy/paste,
search, the pty terminal panel, and the display-width mapping.

Conventions of the embedding:

* A buffer line is a `List Char`; Python string slicing `s[:n]` / `s[n:]`
  becomes `List.take` / `List.drop`, which agrees with Python for the
  non-negative indices produced by the modelled call sites.  Column and
  line arguments are modelled as `Nat`; a negative line argument to the
  plugin primitives fails the source's `0 <= y < len` check exactly like a
  too-large one, which the out-of-range case already covers.

* Python list aliasing matters for history snapshots: `Buffer.set_content`
  (caffee.py line 220) installs a stored snapshot's line list into the
  buffer without copying it, so a later in-place mutation of a buffer line
  writes through to that history entry.  The state tracks this with
  `aliasIdx`, and every in-place mutation of `buffer.lines` goes through
  `writeLines`, which mirrors the write into the aliased entry.  Rebinding
  the list (`self.buffer.lines = [""]` in perform_cut, or replacing the
  whole Buffer) clears the alias; `set_content` moves it.

* `history_index` starts at -1 in `EditorTab.__init__` but is overwritten
  by the `save_history(init=True)` call made at tab creation before any
  other use, so it is modelled as a `Nat` (the -1 is never observable as
  long as the history limit is positive).

* Display-only fields (vertical/horizontal scroll offsets, desired-x is
  kept since it is cursor state) and the curses drawing code are outside
  the model; the scroll adjustment at the end of `move_cursor` and the
  scroll recentering in `apply_history` are omitted accordingly.

* `set_status` records the message text; the wall-clock expiry time is an
  OS concern and is not modelled.

* `unicodedata.east_asian_width` is a Python standard library table; the
  width function is parameterised over the classification, and a small
  sample table records classifications verified against the Unicode
  EastAsianWidth data file.
-/

namespace Caffee

abbrev Line := List Char

/-- ASCII fragment of the character class that the regex shorthand used by
the source (Python re, pattern r-quote (backslash-s asterisk)) matches; the
buffer never holds the non-ASCII whitespace code points in the modelled
traces. -/
def pyIsSpace (c : Char) : Bool :=
  c = ' ' || c = '\t' || c = '\n' || c = '\r' || c = '\x0B' || c = '\x0C'

/-- Python slice `l[a:b]` for non-negative `a`, `b`. -/
def pySlice (l : List α) (a b : Nat) : List α := (l.take b).drop a

/-- Python `list.insert(i, x)` (for `i > len` Python appends, which
`take`/`drop` reproduce). -/
def listInsert (l : List α) (i : Nat) (x : α) : List α :=
  l.take i ++ x :: l.drop i

/-- Python `del l[i]` (a no-op when `i` is past the end; the modelled call
sites only delete valid indices). -/
def listRemove (l : List α) (i : Nat) : List α := l.take i ++ l.drop (i + 1)

/-- The loop `for i in range(1, n-1): lines.insert(pos0 + i, parts[i])` of
insert_text / perform_paste (caffee.py lines 903-904, 1403-1404): each
iteration inserts the next part one position further down. -/
def insertBlock (l : List α) (pos : Nat) : List α → List α
  | [] => l
  | x :: xs => insertBlock (listInsert l pos x) (pos + 1) xs

/-- Python `text.split(a-newline-literal)`: always at least one piece, the
pieces contain no newline. -/
def splitOnNl : List Char → List (List Char)
  | [] => [[]]
  | c :: rest =>
    let r := splitOnNl rest
    if c = '\n' then [] :: r
    else (c :: r.headD []) :: r.tail

/-- Python `text.replace(a-crlf-literal, a-newline-literal)`: left-to-right,
non-overlapping. -/
def normalizeCRLF : List Char → List Char
  | '\r' :: '\n' :: rest => '\n' :: normalizeCRLF rest
  | c :: rest => c :: normalizeCRLF rest
  | [] => []

/-- East-Asian-width categories of the Unicode property consulted by
`unicodedata.east_asian_width`. -/
inductive EAW where
  | F | W | A | Na | H | N
deriving DecidableEq, Repr

/-- caffee.py lines 202-204: width 2 when the classification is in
('F', 'W', 'A'), else 1; parameterised over the classification table. -/
def get_char_width (eaw : Char → EAW) (c : Char) : Nat :=
  if eaw c = EAW.F ∨ eaw c = EAW.W ∨ eaw c = EAW.A then 2 else 1

/-- The width function as the spec describes it: 2 exactly for wide ('W')
or fullwidth ('F'), 1 for everything else (used only to compare the spec's
words against the source's function). -/
def spec_char_width (eaw : Char → EAW) (c : Char) : Nat :=
  if eaw c = EAW.F ∨ eaw c = EAW.W then 2 else 1

/-- A sample of the Unicode EastAsianWidth table (the classification that
`unicodedata.east_asian_width` looks up): U+00A7 SECTION SIGN is Ambiguous,
U+3042 HIRAGANA A is Wide, U+FF21 FULLWIDTH LATIN CAPITAL A is Fullwidth,
ASCII is Narrow; everything else in the sample defaults to Neutral. -/
def sampleEAW (c : Char) : EAW :=
  if c = '§' then EAW.A
  else if c = 'あ' then EAW.W
  else if c = 'Ａ' then EAW.F
  else if c.toNat < 128 then EAW.Na
  else EAW.N

/-- caffee.py lines 1678-1687: the cursor's screen column starts at
`edit_x + linenum_width` (here `base`) and, when `cursor_x >= col_offset`,
adds the display width of every character of
`line[col_offset : cursor_x]`. -/
def cursor_screen_x (eaw : Char → EAW) (base : Nat) (line : Line)
    (col_offset cursor_x : Nat) : Nat :=
  if col_offset ≤ cursor_x then
    (pySlice line col_offset cursor_x).foldl
      (fun acc ch => acc + get_char_width eaw ch) base
  else base

/-- CSI parameter bytes: the regex class running from '0' to '?'
(ANSI_ESCAPE, caffee.py line 198). -/
def isCsiParam (c : Char) : Bool := '0' ≤ c && c ≤ '?'

/-- CSI intermediate bytes: the regex class running from ' ' to '/'. -/
def isCsiInterm (c : Char) : Bool := ' ' ≤ c && c ≤ '/'

/-- CSI final bytes: the regex class running from '@' to '~'. -/
def isCsiFinal (c : Char) : Bool := '@' ≤ c && c ≤ '~'

/-- The single-character escapes: the regex class '@' to 'Z' joined with
backslash to underscore. -/
def isEscSingle (c : Char) : Bool :=
  ('@' ≤ c && c ≤ 'Z') || ('\\' ≤ c && c ≤ '_')

/-- Consume the body of a CSI sequence (parameter bytes, then intermediate
bytes, then one final byte) after the initial ESC-bracket; `none` when the
regex alternative does not match here. -/
def dropCsi (l : List Char) : Option (List Char) :=
  match (l.dropWhile isCsiParam).dropWhile isCsiInterm with
  | c :: rest => if isCsiFinal c then some rest else none
  | [] => none

/-- caffee.py lines 198-200: `ANSI_ESCAPE.sub(empty, text)`.  The regex
engine tries to match at every position from left to right; when the match
attempt started at an ESC fails, the ESC is kept and scanning resumes at
the character right after it. -/
def strip_ansi : List Char → List Char
  | [] => []
  | [c] => [c]
  | c :: d :: rest2 =>
    if c = '\x1b' then
      if isEscSingle d then strip_ansi rest2
      else if d = '[' then
        match h3 : dropCsi rest2 with
        | some rest3 => strip_ansi rest3
        | none => c :: strip_ansi (d :: rest2)
      else c :: strip_ansi (d :: rest2)
    else c :: strip_ansi (d :: rest2)
termination_by l => l.length
decreasing_by
  · simp; omega
  · have hlen : rest3.length < rest2.length + 1 := by
      unfold dropCsi at h3
      split at h3
      case _ c rest heq =>
        split at h3
        · cases h3
          have h1 : (c :: rest3).length ≤
              ((rest2.dropWhile isCsiParam).dropWhile isCsiInterm).length := by
            rw [heq]
          have h2 : ((rest2.dropWhile isCsiParam).dropWhile isCsiInterm).length ≤
              (rest2.dropWhile isCsiParam).length :=
            (List.dropWhile_sublist isCsiInterm).length_le
          have h4 : (rest2.dropWhile isCsiParam).length ≤ rest2.length :=
            (List.dropWhile_sublist isCsiParam).length_le
          simp only [List.length_cons] at h1
          omega
        · cases h3
      · cases h3
    simp; omega
  · simp
  · simp
  · simp

/-- The pty panel's observable state: the master descriptor (None when the
platform has no pty support or the shell was never started) and the
scrollback lines with their cap (caffee.py lines 420-433). -/
structure TermState where
  master_fd : Option Nat
  lines : List Line
  buffer_limit : Nat
deriving DecidableEq, Repr

/-- Terminal.__init__ (caffee.py lines 420-433, with start_shell 435-447):
with pty support the fork hands back a master descriptor and the
scrollback starts empty; without it the panel starts with a single static
informational line and no descriptor. -/
def terminal_init (hasPty : Bool) (fd : Nat) : TermState :=
  if hasPty then
    { master_fd := some fd, lines := [], buffer_limit := 1000 }
  else
    { master_fd := none,
      lines := ["Terminal not supported on this OS (requires pty).".toList],
      buffer_limit := 1000 }

/-- Terminal.write_input (caffee.py lines 449-454).  The second component
records the os.write calls issued; `writeFails` says whether that os.write
raises OSError, which the source swallows, so neither the state nor the
trace depends on it and no error reaches the caller. -/
def write_input (st : TermState) (data : Line) (writeFails : Bool) :
    TermState × List (Nat × Line) :=
  match st.master_fd with
  | some fd =>
    match writeFails with
    | true => (st, [(fd, data)])
    | false => (st, [(fd, data)])
  | none => (st, [])

/-- What the OS hands a single read_output poll: nothing ready, an OSError,
end-of-file (`os.read` returned an empty byte string), or a decoded
chunk. -/
inductive ReadEvent where
  | notReady
  | oserror
  | eof
  | chunk (s : Line)
deriving DecidableEq, Repr

/-- Terminal.read_output (caffee.py lines 456-482): no descriptor, an
unready descriptor, an OSError, and crucially also end-of-file all leave
the state unchanged and return False; a data chunk is ANSI-stripped,
CRLF-normalised, split on newlines, its first fragment merged into the
last scrollback line, the rest appended, and the scrollback truncated to
its cap from the front. -/
def read_output (st : TermState) (ev : ReadEvent) : TermState × Bool :=
  match st.master_fd with
  | none => (st, false)
  | some _ =>
    match ev with
    | .notReady => (st, false)
    | .oserror => (st, false)
    | .eof => (st, false)
    | .chunk s =>
      let text := normalizeCRLF (strip_ansi s)
      let new_lines := splitOnNl text
      let merged :=
        match st.lines with
        | [] => new_lines.headD [] :: new_lines.tail
        | _ => st.lines.dropLast ++
            [(st.lines.getLastD []) ++ new_lines.headD []] ++ new_lines.tail
      let capped :=
        if st.buffer_limit < merged.length then
          merged.drop (merged.length - st.buffer_limit)
        else merged
      ({ st with lines := capped }, true)

/-- The configuration keys the modelled operations read (DEFAULT_CONFIG,
caffee.py lines 56-72; the remaining keys concern splash, layout and color
rendering). -/
structure Config where
  tab_width : Nat
  history_limit : Nat
  use_soft_tabs : Bool
deriving DecidableEq, Repr

/-- The default values of the modelled configuration keys. -/
def defaultConfig : Config :=
  { tab_width := 4, history_limit := 50, use_soft_tabs := true }

/-- A history snapshot, caffee.py line 912: the buffer content plus the
cursor position. -/
abbrev Snapshot := List Line × Nat × Nat

/-- The per-tab editor state (EditorTab, caffee.py lines 508-523, plus the
editor-level clipboard and status message that the modelled operations
touch).  `aliasIdx = some i` records that `buffer.lines` is the very list
object stored in history entry `i` (the situation `apply_history` creates
through the copy-free `Buffer.set_content`). -/
structure EState where
  lines : List Line
  cursor_y : Nat
  cursor_x : Nat
  desired_x : Nat
  history : List Snapshot
  history_index : Nat
  modified : Bool
  mark_pos : Option (Nat × Nat)
  clipboard : List Line
  status_message : String
  aliasIdx : Option Nat
deriving DecidableEq, Repr

/-- Mirror an in-place mutation of the buffer's line list into the history
entry that currently shares that list object (if any). -/
def writeThrough (hist : List Snapshot) (i : Nat) (content : List Line) :
    List Snapshot :=
  match hist[i]? with
  | some s => hist.set i (content, s.2.1, s.2.2)
  | none => hist

/-- An in-place mutation of `buffer.lines` (slice assignment, element
assignment, insert, pop, del): the buffer gets the new list and, when the
buffer aliases a history entry, so does that entry. -/
def writeLines (st : EState) (newLines : List Line) : EState :=
  { st with
    lines := newLines,
    history :=
      match st.aliasIdx with
      | some i => writeThrough st.history i newLines
      | none => st.history }

/-- Editor.move_cursor (caffee.py lines 1313-1324): clamp the line into
the buffer and the column into the target line; `check_bounds` re-runs a
(yet again clamping) bounds check that the preceding clamps already made
true; optionally refresh `desired_x`.  The trailing scroll-offset
adjustment (lines 1326-1343) is display-only and outside the model. -/
def move_cursor (st : EState) (y x : Int)
    (update_desired_x check_bounds : Bool) : EState :=
  let new_y : Nat := (max 0 (min y ((st.lines.length : Int) - 1))).toNat
  let line_len : Nat := (st.lines.getD new_y []).length
  let new_x : Nat := (max 0 (min x (line_len : Int))).toNat
  let new_x := if check_bounds ∧ line_len < new_x then line_len else new_x
  let new_y := if check_bounds ∧ st.lines.length ≤ new_y
    then st.lines.length - 1 else new_y
  { st with
    cursor_y := new_y
    cursor_x := new_x
    desired_x := if update_desired_x then new_x else st.desired_x }

/-- Editor.save_history (caffee.py lines 911-924): snapshot the current
content (a copy, via get_content), truncate redo entries beyond the
current index, coalesce when (outside init mode) the content equals the
most recent entry's, otherwise append, point the index at the new last
entry, evict the oldest entry when over the configured cap, and (outside
init mode) set the modified flag. -/
def save_history_fields (cfg : Config) (init : Bool) (snap : Snapshot)
    (history : List Snapshot) (history_index : Nat) (aliasIdx : Option Nat)
    (modified : Bool) : List Snapshot × Nat × Option Nat × Bool :=
  let truncated := history_index + 1 < history.length
  let hist1 := if truncated then history.take (history_index + 1) else history
  let al1 :=
    if truncated then
      match aliasIdx with
      | some i => if i < history_index + 1 then some i else none
      | none => none
    else aliasIdx
  if init = false ∧ (hist1.getLast?.map fun s => s.1) = some snap.1 then
    (hist1, history_index, al1, modified)
  else
    let hist2 := hist1 ++ [snap]
    let idx2 := hist2.length - 1
    let over := cfg.history_limit < hist2.length
    let hist3 := if over then hist2.drop 1 else hist2
    let idx3 := if over then idx2 - 1 else idx2
    let al3 :=
      if over then
        match al1 with
        | some 0 => none
        | some (i + 1) => some i
        | none => none
      else al1
    (hist3, idx3, al3, if init then modified else true)

/-- The state-level wrapper of save_history: everything but the four
fields above is untouched. -/
def save_history (cfg : Config) (init : Bool) (st : EState) : EState :=
  let r := save_history_fields cfg init (st.lines, st.cursor_y, st.cursor_x)
    st.history st.history_index st.aliasIdx st.modified
  { st with
    history := r.1
    history_index := r.2.1
    aliasIdx := r.2.2.1
    modified := r.2.2.2 }

/-- Editor.apply_history (caffee.py lines 926-934): for an in-range index,
install that snapshot's content into the buffer (set_content: no copy, so
the buffer now aliases the entry), clamp the stored cursor into it, set
the modified flag from whether the index is non-zero, and report.  The
scroll recentering (line 932) is display-only and outside the model. -/
def apply_history (st : EState) (index : Nat) : EState :=
  if index < st.history.length then
    let snap := st.history.getD index ([], 0, 0)
    let st1 := { st with
      history_index := index
      lines := snap.1
      aliasIdx := some index }
    let st2 := move_cursor st1 (snap.2.1 : Int) (snap.2.2 : Int) true true
    { st2 with
      modified := index != 0
      status_message := "Applied history state " ++ toString (index + 1) ++
        "/" ++ toString st.history.length }
  else st

/-- Editor.undo (caffee.py lines 936-938). -/
def undo (st : EState) : EState :=
  if 0 < st.history_index then apply_history st (st.history_index - 1)
  else { st with status_message := "Nothing to undo." }

/-- Editor.redo (caffee.py lines 940-942). -/
def redo (st : EState) : EState :=
  if st.history_index + 1 < st.history.length then
    apply_history st (st.history_index + 1)
  else { st with status_message := "Nothing to redo." }

/-- Editor.get_selection_range (caffee.py lines 1036-1041): the mark and
the cursor, ordered lexicographically. -/
def get_selection_range (st : EState) : Option ((Nat × Nat) × (Nat × Nat)) :=
  match st.mark_pos with
  | none => none
  | some p1 =>
    let p2 := (st.cursor_y, st.cursor_x)
    if p2.1 < p1.1 ∨ (p2.1 = p1.1 ∧ p2.2 < p1.2) then some (p2, p1)
    else some (p1, p2)

/-- Character self-insert, main_loop (caffee.py lines 1911-1916): record
history, splice the character into the cursor line, advance the cursor. -/
def insert_char (cfg : Config) (c : Char) (st : EState) : EState :=
  let st1 := save_history cfg false st
  let line := st1.lines.getD st1.cursor_y []
  let st2 := writeLines st1 (st1.lines.set st1.cursor_y
    (line.take st1.cursor_x ++ c :: line.drop st1.cursor_x))
  let st3 := move_cursor st2 (st2.cursor_y : Int) ((st2.cursor_x : Int) + 1)
    true false
  { st3 with modified := true }

/-- The Enter handler, main_loop (caffee.py lines 1892-1902): record
history, insert below the cursor a new line made of the original line's
leading whitespace followed by the tail after the cursor, cut the current
line at the cursor, and move to the new line just after the indent. -/
def enter_key (cfg : Config) (st : EState) : EState :=
  let st1 := save_history cfg false st
  let line := st1.lines.getD st1.cursor_y []
  let indent := line.takeWhile pyIsSpace
  let st2 := writeLines st1 (listInsert st1.lines (st1.cursor_y + 1)
    (indent ++ line.drop st1.cursor_x))
  let st3 := writeLines st2 (st2.lines.set st2.cursor_y
    (line.take st2.cursor_x))
  let st4 := move_cursor st3 ((st3.cursor_y : Int) + 1) (indent.length : Int)
    true false
  { st4 with modified := true }

/-- The Tab handler, main_loop (caffee.py lines 1903-1909): record
history, insert `tab_width` spaces at the cursor, advance the cursor by
that many columns.  Only `tab_width` is read from the configuration. -/
def tab_key (cfg : Config) (st : EState) : EState :=
  let st1 := save_history cfg false st
  let tab_spaces := List.replicate cfg.tab_width ' '
  let line := st1.lines.getD st1.cursor_y []
  let st2 := writeLines st1 (st1.lines.set st1.cursor_y
    (line.take st1.cursor_x ++ tab_spaces ++ line.drop st1.cursor_x))
  let st3 := move_cursor st2 (st2.cursor_y : Int)
    ((st2.cursor_x : Int) + tab_spaces.length) true false
  { st3 with modified := true }

/-- Editor.perform_copy (caffee.py lines 1345-1360): extract the selected
text into the clipboard and clear the mark; with no selection only a
status message is set. -/
def perform_copy (st : EState) : EState :=
  match get_selection_range st with
  | none => { st with status_message := "No selection to copy." }
  | some ((s0, s1), (e0, e1)) =>
    let clip :=
      if s0 = e0 then [pySlice (st.lines.getD s0 []) s1 e1]
      else (st.lines.getD s0 []).drop s1
        :: pySlice st.lines (s0 + 1) e0
        ++ [(st.lines.getD e0 []).take e1]
    { st with
      clipboard := clip
      status_message := "Copied " ++ toString clip.length ++ " lines."
      mark_pos := none }

/-- Editor.perform_cut (caffee.py lines 1362-1387): record history; with
no selection pop the cursor line into the clipboard, rebinding the line
list to a fresh single empty line if that emptied it; with a selection,
copy it and then delete the selected range. -/
def perform_cut (cfg : Config) (st : EState) : EState :=
  let st0 := save_history cfg false st
  match get_selection_range st0 with
  | none =>
    if 0 < st0.lines.length then
      let popped := st0.lines.getD st0.cursor_y []
      let st1 := { writeLines st0 (listRemove st0.lines st0.cursor_y) with
        clipboard := [popped] }
      let st2 := if st1.lines = ([] : List Line) then
          { st1 with lines := [([] : Line)], aliasIdx := none }
        else st1
      let st3 := move_cursor st2 (st2.cursor_y : Int) 0 false false
      { st3 with modified := true, status_message := "Cut line." }
    else st0
  | some ((s0, s1), (e0, e1)) =>
    let stc := perform_copy st0
    let st1 :=
      if s0 = e0 then
        let line := stc.lines.getD s0 []
        writeLines stc (stc.lines.set s0 (line.take s1 ++ line.drop e1))
      else
        let line_start := (stc.lines.getD s0 []).take s1
        let line_end := (stc.lines.getD e0 []).drop e1
        let sta := writeLines stc
          (stc.lines.take (s0 + 1) ++ stc.lines.drop (e0 + 1))
        writeLines sta (sta.lines.set s0 (line_start ++ line_end))
    let st2 := move_cursor st1 (s0 : Int) (s1 : Int) false false
    { st2 with
      mark_pos := none
      modified := true
      status_message := "Cut selection." }

/-- Editor.perform_paste (caffee.py lines 1389-1410): record history,
splice the clipboard in at the cursor (a single piece inline; several
pieces split the cursor line around them), and move past the pasted
text. -/
def perform_paste (cfg : Config) (st : EState) : EState :=
  if st.clipboard = [] then { st with status_message := "Clipboard empty." }
  else
    let st1 := save_history cfg false st
    let current_line := st1.lines.getD st1.cursor_y []
    let pre := current_line.take st1.cursor_x
    let suf := current_line.drop st1.cursor_x
    if st1.clipboard.length = 1 then
      let piece := st1.clipboard.getD 0 []
      let st2 := writeLines st1
        (st1.lines.set st1.cursor_y (pre ++ piece ++ suf))
      let st3 := move_cursor st2 (st2.cursor_y : Int)
        ((st2.cursor_x : Int) + piece.length) false false
      { st3 with modified := true, status_message := "Pasted." }
    else
      let firstPiece := st1.clipboard.getD 0 []
      let mids := (st1.clipboard.drop 1).dropLast
      let lastPiece := st1.clipboard.getLastD []
      let st2 := writeLines st1
        (st1.lines.set st1.cursor_y (pre ++ firstPiece))
      let st3 := writeLines st2 (insertBlock st2.lines (st2.cursor_y + 1) mids)
      let st4 := writeLines st3 (listInsert st3.lines
        (st3.cursor_y + st1.clipboard.length - 1) (lastPiece ++ suf))
      let new_y := st4.cursor_y + st1.clipboard.length - 1
      let new_x := lastPiece.length
      let st5 := move_cursor st4 (new_y : Int) (new_x : Int) false false
      { st5 with modified := true, status_message := "Pasted." }

/-- Editor.insert_text (caffee.py lines 892-909), the plugin text-insert
primitive: record history, split the text on newlines and splice the
pieces in at the cursor exactly like paste does. -/
def insert_text (cfg : Config) (text : List Char) (st : EState) : EState :=
  let st1 := save_history cfg false st
  let lines_to_insert := splitOnNl text
  let current_line := st1.lines.getD st1.cursor_y []
  let pre := current_line.take st1.cursor_x
  let suf := current_line.drop st1.cursor_x
  if lines_to_insert.length = 1 then
    let piece := lines_to_insert.getD 0 []
    let st2 := writeLines st1
      (st1.lines.set st1.cursor_y (pre ++ piece ++ suf))
    let st3 := move_cursor st2 (st2.cursor_y : Int)
      ((st2.cursor_x : Int) + piece.length) false false
    { st3 with modified := true }
  else
    let firstPiece := lines_to_insert.getD 0 []
    let mids := (lines_to_insert.drop 1).dropLast
    let lastPiece := lines_to_insert.getLastD []
    let st2 := writeLines st1
      (st1.lines.set st1.cursor_y (pre ++ firstPiece))
    let st3 := writeLines st2 (insertBlock st2.lines (st2.cursor_y + 1) mids)
    let st4 := writeLines st3 (listInsert st3.lines
      (st3.cursor_y + lines_to_insert.length - 1) (lastPiece ++ suf))
    let new_y := st4.cursor_y + lines_to_insert.length - 1
    let new_x := lastPiece.length
    let st5 := move_cursor st4 (new_y : Int) (new_x : Int) false false
    { st5 with modified := true }

/-- The Backspace handler, main_loop (caffee.py lines 1877-1891): with a
mark, cut the selection; inside a line, delete the character before the
cursor; at column 0 of a later line, join the line onto the previous
one. -/
def backspace_key (cfg : Config) (st : EState) : EState :=
  if st.mark_pos.isSome then perform_cut cfg st
  else if 0 < st.cursor_x then
    let st1 := save_history cfg false st
    let line := st1.lines.getD st1.cursor_y []
    let st2 := writeLines st1 (st1.lines.set st1.cursor_y
      (line.take (st1.cursor_x - 1) ++ line.drop st1.cursor_x))
    let st3 := move_cursor st2 (st2.cursor_y : Int) ((st2.cursor_x : Int) - 1)
      true false
    { st3 with modified := true }
  else if 0 < st.cursor_y then
    let st1 := save_history cfg false st
    let prev_len := (st1.lines.getD (st1.cursor_y - 1) []).length
    let st2 := writeLines st1 (st1.lines.set (st1.cursor_y - 1)
      (st1.lines.getD (st1.cursor_y - 1) [] ++ st1.lines.getD st1.cursor_y []))
    let st3 := writeLines st2 (listRemove st2.lines st2.cursor_y)
    let st4 := move_cursor st3 ((st3.cursor_y : Int) - 1) (prev_len : Int)
      true false
    { st4 with modified := true }
  else st

/-- Editor.delete_line (caffee.py lines 1432-1442): record history; with
several lines delete the cursor line, with one non-empty line blank it;
the modified flag and status are set in every case. -/
def delete_line (cfg : Config) (st : EState) : EState :=
  if st.lines = [] then st
  else
    let st1 := save_history cfg false st
    if 1 < st1.lines.length then
      let st2 := writeLines st1 (listRemove st1.lines st1.cursor_y)
      let st3 := move_cursor st2 (st2.cursor_y : Int) 0 false false
      { st3 with modified := true, status_message := "Deleted line." }
    else if st1.lines ≠ [] ∧ (st1.lines.getD 0 []).length ≠ 0 then
      let st2 := writeLines st1 (st1.lines.set 0 [])
      let st3 := move_cursor st2 0 0 false false
      { st3 with modified := true, status_message := "Deleted line." }
    else { st1 with modified := true, status_message := "Deleted line." }

/-- Editor.delete_range (caffee.py lines 831-849), the plugin
range-delete primitive: line indices outside the buffer make the call
return with no effect at all (before any history record); in range, a
same-line delete clamps and orders the columns, and a multi-line delete
orders the endpoints and joins the boundary fragments. -/
def delete_range (cfg : Config) (y1 x1 y2 x2 : Nat) (st : EState) : EState :=
  if y1 < st.lines.length ∧ y2 < st.lines.length then
    let st1 := save_history cfg false st
    if y1 = y2 then
      let line := st1.lines.getD y1 []
      let a := min x1 line.length
      let b := min x2 line.length
      let p := if b < a then (b, a) else (a, b)
      let st2 := writeLines st1 (st1.lines.set y1
        (line.take p.1 ++ line.drop p.2))
      let st3 := move_cursor st2 (y1 : Int) (p.1 : Int) true false
      { st3 with modified := true }
    else
      let q := if y2 < y1 then (y2, x2, y1, x1) else (y1, x1, y2, x2)
      let line_start := (st1.lines.getD q.1 []).take q.2.1
      let line_end := (st1.lines.getD q.2.2.1 []).drop q.2.2.2
      let st2 := writeLines st1
        (st1.lines.take (q.1 + 1) ++ st1.lines.drop (q.2.2.1 + 1))
      let st3 := writeLines st2 (st2.lines.set q.1 (line_start ++ line_end))
      let st4 := move_cursor st3 (q.1 : Int) (q.2.1 : Int) true false
      { st4 with modified := true }
  else st

/-- Editor.replace_text (caffee.py lines 851-861), the plugin
range-replace primitive: a line index outside the buffer makes the call
return with no effect; in range, the columns are clamped and the
replacement text is spliced in verbatim (it is not split on newlines). -/
def replace_text (cfg : Config) (y start_x end_x : Nat) (new_text : Line)
    (st : EState) : EState :=
  if y < st.lines.length then
    let st1 := save_history cfg false st
    let line := st1.lines.getD y []
    let s := min start_x line.length
    let e := min end_x line.length
    let st2 := writeLines st1 (st1.lines.set y
      (line.take s ++ new_text ++ line.drop e))
    let st3 := move_cursor st2 (y : Int) ((s : Int) + new_text.length)
      true false
    { st3 with modified := true }
  else st

/-- The history/flag effect of a successful Editor.save_file (caffee.py
lines 1552-1564): after the file is written, the modified flag is cleared
and `save_history(init=True)` runs.  The file/backup I/O, mtime refresh,
syntax re-detection and status message are outside the model. -/
def save_file_success (cfg : Config) (st : EState) : EState :=
  save_history cfg true { st with modified := false }

/-- `pattern.search(line, pos)` for a literal pattern: the least start
index at or after `pos` (and at most the line length) where the pattern
occurs.  The source compiles the query with `re.compile`; the modelled
queries are literal strings, for which the regex engine returns exactly
the leftmost occurrence at or after `pos`. -/
def findFrom (pat line : Line) (pos : Nat) : Option Nat :=
  ((List.range (line.length + 1)).filter
    fun i => decide (pos ≤ i) && pat.isPrefixOf (line.drop i)).head?

/-- The forward scan of search_text (caffee.py lines 1475-1480): the first
listed line with a match anywhere. -/
def scanLines (pat : Line) (lines : List Line) : List Nat → Option (Nat × Nat)
  | [] => none
  | i :: is =>
    match findFrom pat (lines.getD i []) 0 with
    | some m => some (i, m)
    | none => scanLines pat lines is

/-- The wraparound scan of search_text (caffee.py lines 1482-1493): lines
0 .. start_y in order; on the start line itself the line's first match
counts only when its start column is at most `sx`. -/
def scanWrap (pat : Line) (lines : List Line) (sy sx : Nat) :
    List Nat → Option (Nat × Nat)
  | [] => none
  | i :: is =>
    match findFrom pat (lines.getD i []) 0 with
    | some m =>
      if i = sy then
        if m ≤ sx then some (i, m) else scanWrap pat lines sy sx is
      else some (i, m)
    | none => scanWrap pat lines sy sx is

/-- The position search_text reports (caffee.py lines 1465-1493): first
the cursor line from one column past the cursor, then the following lines
to the end of the buffer, then the wraparound scan; `none` when all three
phases fail. -/
def search_result (pat : Line) (lines : List Line) (sy sx : Nat) :
    Option (Nat × Nat) :=
  match findFrom pat (lines.getD sy []) (sx + 1) with
  | some m => some (sy, m)
  | none =>
    match scanLines pat lines (List.range' (sy + 1) (lines.length - (sy + 1))) with
    | some r => some r
    | none => scanWrap pat lines sy sx (List.range (sy + 1))

/-- Editor.search_text (caffee.py lines 1444-1499) after the prompt and
the regex compilation: move the cursor to the found position (refreshing
desired-x) and report, or report no match.  The prompt I/O and the
invalid-regex abort happen before this point. -/
def search_text (pat : Line) (st : EState) : EState :=
  match search_result pat st.lines st.cursor_y st.cursor_x with
  | some (y, x) =>
    let st1 := move_cursor st (y : Int) (x : Int) true false
    { st1 with status_message := "Found match." }
  | none => { st with status_message := "No match for pattern." }

/-- The buffer-mutating operations the invariant claims quantify over:
the editing key handlers and the plugin buffer primitives. -/
inductive EditOp where
  | charKey (c : Char)
  | enter
  | tab
  | backspace
  | delLine
  | cut
  | paste
  | insertAt (text : List Char)
  | delRange (y1 x1 y2 x2 : Nat)
  | replaceRange (y sx ex : Nat) (text : List Char)
deriving DecidableEq, Repr

/-- Dispatch an operation to its handler. -/
def applyOp (cfg : Config) (op : EditOp) (st : EState) : EState :=
  match op with
  | .charKey c => insert_char cfg c st
  | .enter => enter_key cfg st
  | .tab => tab_key cfg st
  | .backspace => backspace_key cfg st
  | .delLine => delete_line cfg st
  | .cut => perform_cut cfg st
  | .paste => perform_paste cfg st
  | .insertAt t => insert_text cfg t st
  | .delRange y1 x1 y2 x2 => delete_range cfg y1 x1 y2 x2 st
  | .replaceRange y sx ex t => replace_text cfg y sx ex t st

/-- A line free of the line-break character. -/
def noNL (l : Line) : Prop := '\n' ∉ l

/-- The buffer invariant of the spec — at least one line and no line
containing a line break — together with the same no-line-break condition
on the clipboard (which cut/copy fill from buffer lines and paste splices
back in). -/
def BufInv (st : EState) : Prop :=
  st.lines ≠ [] ∧ (∀ l ∈ st.lines, noNL l) ∧ ∀ l ∈ st.clipboard, noNL l

/-- The argument conditions under which the main loop and a well-behaved
plugin invoke the operations: a self-inserted character is never a line
break (the key decoder routes control characters elsewhere), and
replace_text receives no line break (nothing in the source splits its
argument). -/
def OpOK : EditOp → Prop
  | .charKey c => c ≠ '\n'
  | .replaceRange _ _ _ t => '\n' ∉ t
  | _ => True

instance : DecidablePred OpOK := fun op => by
  cases op <;> simp only [OpOK] <;> infer_instance

instance : DecidablePred noNL := fun l => by
  simp only [noNL]; infer_instance

instance (st : EState) : Decidable (BufInv st) := by
  simp only [BufInv]; infer_instance

/-- A tab's state before its first `save_history(init=True)`:
EditorTab.__init__ (caffee.py lines 508-523) with the editor-level
clipboard and status fields at their Editor.__init__ values. -/
def emptyEState (ls : List Line) : EState :=
  { lines := ls
    cursor_y := 0
    cursor_x := 0
    desired_x := 0
    history := []
    history_index := 0
    modified := false
    mark_pos := none
    clipboard := []
    status_message := ""
    aliasIdx := none }

/-- A freshly created tab: EditorTab construction followed by the
`save_history(init=True)` of Editor.__init__ (caffee.py line 546). -/
def initState (ls : List Line) : EState :=
  save_history defaultConfig true (emptyEState ls)

/-- Demo trace: open an empty buffer, type 'a', type 'b', undo, type 'c'. -/
def demo0 : EState := initState [[]]

def demo1 : EState := insert_char defaultConfig 'a' demo0

def demo2 : EState := insert_char defaultConfig 'b' demo1

def demo3 : EState := undo demo2

def demo4 : EState := insert_char defaultConfig 'c' demo3

/-- A two-line demo buffer for the clamping counterexamples. -/
def demoAB : EState := initState [['a', 'b'], ['c', 'd']]

section FrameLemmas

variable {st : EState} {nl : List Line} {cfg : Config}

@[simp] theorem writeLines_lines : (writeLines st nl).lines = nl := rfl

@[simp] theorem writeLines_clipboard :
    (writeLines st nl).clipboard = st.clipboard := rfl

@[simp] theorem writeLines_cursor_y :
    (writeLines st nl).cursor_y = st.cursor_y := rfl

@[simp] theorem writeLines_cursor_x :
    (writeLines st nl).cursor_x = st.cursor_x := rfl

@[simp] theorem writeLines_mark_pos :
    (writeLines st nl).mark_pos = st.mark_pos := rfl

@[simp] theorem save_history_lines {b : Bool} :
    (save_history cfg b st).lines = st.lines := rfl

@[simp] theorem save_history_clipboard {b : Bool} :
    (save_history cfg b st).clipboard = st.clipboard := rfl

@[simp] theorem save_history_cursor_y {b : Bool} :
    (save_history cfg b st).cursor_y = st.cursor_y := rfl

@[simp] theorem save_history_cursor_x {b : Bool} :
    (save_history cfg b st).cursor_x = st.cursor_x := rfl

@[simp] theorem save_history_mark_pos {b : Bool} :
    (save_history cfg b st).mark_pos = st.mark_pos := rfl

@[simp] theorem save_history_modified_of_init :
    (save_history cfg true st).modified = st.modified := by
  unfold save_history save_history_fields
  simp

@[simp] theorem move_cursor_lines {y x : Int} {u c : Bool} :
    (move_cursor st y x u c).lines = st.lines := rfl

@[simp] theorem move_cursor_clipboard {y x : Int} {u c : Bool} :
    (move_cursor st y x u c).clipboard = st.clipboard := rfl

@[simp] theorem move_cursor_mark_pos {y x : Int} {u c : Bool} :
    (move_cursor st y x u c).mark_pos = st.mark_pos := rfl

@[simp] theorem move_cursor_history {y x : Int} {u c : Bool} :
    (move_cursor st y x u c).history = st.history := rfl

@[simp] theorem perform_copy_lines : (perform_copy st).lines = st.lines := by
  unfold perform_copy; split <;> rfl

end FrameLemmas

section NoNLKit

theorem noNL_nil : noNL ([] : Line) := by simp [noNL]

theorem noNL_append {a b : Line} (ha : noNL a) (hb : noNL b) :
    noNL (a ++ b) := by
  simp only [noNL, List.mem_append] at *
  intro h; cases h <;> simp_all

theorem noNL_take {l : Line} (h : noNL l) (n : Nat) : noNL (l.take n) :=
  fun hm => h (List.mem_of_mem_take hm)

theorem noNL_drop {l : Line} (h : noNL l) (n : Nat) : noNL (l.drop n) :=
  fun hm => h (List.mem_of_mem_drop hm)

theorem noNL_cons {l : Line} {c : Char} (hc : c ≠ '\n') (h : noNL l) :
    noNL (c :: l) := by
  simp only [noNL, List.mem_cons] at *
  intro hm
  cases hm with
  | inl he => exact hc he.symm
  | inr hm => exact h hm

theorem noNL_takeWhile {l : Line} (h : noNL l) (p : Char → Bool) :
    noNL (l.takeWhile p) :=
  fun hm => h ((List.takeWhile_sublist p).mem hm)

theorem noNL_replicate_space (n : Nat) : noNL (List.replicate n ' ') := by
  intro hm
  have := (List.mem_replicate.mp hm).2
  simp at this

theorem noNL_pySlice {l : Line} (h : noNL l) (a b : Nat) :
    noNL (pySlice l a b) :=
  noNL_drop (noNL_take h b) a

/-- All lines of a line list are break-free. -/
def AllNoNL (ls : List Line) : Prop := ∀ l ∈ ls, noNL l

theorem AllNoNL_getD {ls : List Line} (h : AllNoNL ls) (i : Nat) :
    noNL (ls.getD i []) := by
  induction ls generalizing i with
  | nil => simpa [List.getD] using noNL_nil
  | cons a as ih =>
    cases i with
    | zero => exact h a (by simp)
    | succ j =>
      exact ih (fun l hl => h l (by simp [hl])) j

theorem AllNoNL_set {ls : List Line} {v : Line} (h : AllNoNL ls)
    (hv : noNL v) (i : Nat) : AllNoNL (ls.set i v) := by
  intro l hl
  rcases List.mem_or_eq_of_mem_set hl with hm | he
  · exact h l hm
  · exact he ▸ hv

theorem AllNoNL_append {a b : List Line} (ha : AllNoNL a) (hb : AllNoNL b) :
    AllNoNL (a ++ b) := by
  intro l hl
  rcases List.mem_append.mp hl with hm | hm
  · exact ha l hm
  · exact hb l hm

theorem AllNoNL_take {ls : List Line} (h : AllNoNL ls) (n : Nat) :
    AllNoNL (ls.take n) :=
  fun l hl => h l (List.mem_of_mem_take hl)

theorem AllNoNL_drop {ls : List Line} (h : AllNoNL ls) (n : Nat) :
    AllNoNL (ls.drop n) :=
  fun l hl => h l (List.mem_of_mem_drop hl)

theorem AllNoNL_cons {ls : List Line} {v : Line} (hv : noNL v)
    (h : AllNoNL ls) : AllNoNL (v :: ls) := by
  intro l hl
  rcases List.mem_cons.mp hl with he | hm
  · exact he ▸ hv
  · exact h l hm

theorem AllNoNL_listInsert {ls : List Line} {v : Line} (h : AllNoNL ls)
    (hv : noNL v) (i : Nat) : AllNoNL (listInsert ls i v) := by
  unfold listInsert
  exact AllNoNL_append (AllNoNL_take h i) (AllNoNL_cons hv (AllNoNL_drop h i))

theorem AllNoNL_listRemove {ls : List Line} (h : AllNoNL ls) (i : Nat) :
    AllNoNL (listRemove ls i) := by
  unfold listRemove
  exact AllNoNL_append (AllNoNL_take h i) (AllNoNL_drop h (i + 1))

theorem AllNoNL_insertBlock {ls : List Line} {blk : List Line}
    (h : AllNoNL ls) (hblk : AllNoNL blk) (pos : Nat) :
    AllNoNL (insertBlock ls pos blk) := by
  induction blk generalizing ls pos with
  | nil => exact h
  | cons b bs ih =>
    have hb : noNL b := hblk b (by simp)
    have hbs : AllNoNL bs := fun l hl => hblk l (by simp [hl])
    exact ih (AllNoNL_listInsert h hb pos) hbs (pos + 1)

theorem AllNoNL_pySlice {ls : List Line} (h : AllNoNL ls) (a b : Nat) :
    AllNoNL (pySlice ls a b) :=
  AllNoNL_drop (AllNoNL_take h b) a

theorem splitOnNl_noNL (t : List Char) : AllNoNL (splitOnNl t) := by
  induction t with
  | nil =>
    intro l hl
    simp only [splitOnNl, List.mem_singleton] at hl
    exact hl ▸ noNL_nil
  | cons c rest ih =>
    intro l hl
    by_cases hc : c = '\n'
    · rw [show splitOnNl (c :: rest) = [] :: splitOnNl rest by
        simp [splitOnNl, hc]] at hl
      rcases List.mem_cons.mp hl with he | hm
      · exact he ▸ noNL_nil
      · exact ih l hm
    · rw [show splitOnNl (c :: rest) =
          (c :: (splitOnNl rest).headD []) :: (splitOnNl rest).tail by
        simp [splitOnNl, hc]] at hl
      rcases List.mem_cons.mp hl with he | hm
      · subst he
        refine noNL_cons hc ?_
        cases hr : splitOnNl rest with
        | nil => simp only [List.headD_nil]; exact noNL_nil
        | cons a as =>
          simp only [List.headD_cons]
          exact ih a (by simp [hr])
      · exact ih l ((List.tail_sublist (splitOnNl rest)).mem hm)

theorem splitOnNl_ne_nil (t : List Char) : splitOnNl t ≠ [] := by
  cases t with
  | nil => simp [splitOnNl]
  | cons c rest =>
    simp only [splitOnNl]
    split <;> simp

theorem listInsert_ne_nil {ls : List Line} {v : Line} (i : Nat) :
    listInsert ls i v ≠ [] := by
  unfold listInsert
  intro h
  have := congrArg List.length h
  simp only [List.length_append, List.length_take, List.length_cons,
    List.length_nil] at this
  omega

theorem listRemove_ne_nil_of_two {ls : List Line} (h : 2 ≤ ls.length)
    (i : Nat) : listRemove ls i ≠ [] := by
  unfold listRemove
  intro he
  have := congrArg List.length he
  simp only [List.length_append, List.length_take, List.length_drop,
    List.length_nil] at this
  omega

theorem listRemove_ne_nil_of_pos {ls : List Line} (h : ls ≠ [])
    {i : Nat} (hi : 0 < i) : listRemove ls i ≠ [] := by
  unfold listRemove
  intro he
  have := congrArg List.length he
  have hlen : 0 < ls.length := List.length_pos.mpr h
  simp only [List.length_append, List.length_take, List.length_drop,
    List.length_nil] at this
  omega

theorem take_append_drop_ne_nil {ls : List Line} (h : ls ≠ [])
    (i j : Nat) : ls.take (i + 1) ++ ls.drop j ≠ [] := by
  intro he
  have := congrArg List.length he
  have hlen : 0 < ls.length := List.length_pos.mpr h
  simp only [List.length_append, List.length_take, List.length_drop,
    List.length_nil] at this
  omega

theorem set_ne_nil {ls : List Line} {v : Line} (h : ls ≠ []) (i : Nat) :
    ls.set i v ≠ [] := by
  intro he
  have := congrArg List.length he
  simp at this
  exact h this

end NoNLKit

section OpInvariance

variable {cfg : Config} {st : EState}

theorem AllNoNL_getLastD {ls : List Line} (h : AllNoNL ls) :
    noNL (ls.getLastD []) := by
  cases ls with
  | nil => simpa using noNL_nil
  | cons a as =>
    have hm : (a :: as).getLast (by simp) ∈ a :: as := List.getLast_mem _
    simpa [List.getLastD_eq_getLast?, List.getLast?_eq_getLast] using
      h _ hm

theorem AllNoNL_nil : AllNoNL [] := by
  intro l hl
  simp at hl

theorem AllNoNL_dropLast {ls : List Line} (h : AllNoNL ls) :
    AllNoNL ls.dropLast :=
  fun l hl => h l ((List.dropLast_sublist ls).mem hl)

theorem BufInv_save_history {b : Bool} :
    BufInv (save_history cfg b st) ↔ BufInv st := by
  unfold BufInv
  simp

theorem get_selection_range_save_history {b : Bool} :
    get_selection_range (save_history cfg b st) = get_selection_range st := by
  unfold get_selection_range
  simp

theorem insert_char_inv {c : Char} (h : BufInv st) (hc : c ≠ '\n') :
    BufInv (insert_char cfg c st) := by
  obtain ⟨h1, h2, h3⟩ := h
  have hline : noNL (st.lines.getD st.cursor_y []) := AllNoNL_getD h2 _
  refine ⟨?_, ?_, ?_⟩ <;>
    simp only [insert_char, writeLines_lines, writeLines_clipboard,
      writeLines_cursor_y, writeLines_cursor_x, move_cursor_lines,
      move_cursor_clipboard, save_history_lines, save_history_clipboard,
      save_history_cursor_y, save_history_cursor_x]
  · exact set_ne_nil h1 _
  · exact AllNoNL_set h2
      (noNL_append (noNL_take hline _) (noNL_cons hc (noNL_drop hline _))) _
  · exact h3

theorem enter_key_inv (h : BufInv st) : BufInv (enter_key cfg st) := by
  obtain ⟨h1, h2, h3⟩ := h
  have hline : noNL (st.lines.getD st.cursor_y []) := AllNoNL_getD h2 _
  refine ⟨?_, ?_, ?_⟩ <;>
    simp only [enter_key, writeLines_lines, writeLines_clipboard,
      writeLines_cursor_y, writeLines_cursor_x, move_cursor_lines,
      move_cursor_clipboard, save_history_lines, save_history_clipboard,
      save_history_cursor_y, save_history_cursor_x]
  · exact set_ne_nil (listInsert_ne_nil _) _
  · exact AllNoNL_set
      (AllNoNL_listInsert h2
        (noNL_append (noNL_takeWhile hline _) (noNL_drop hline _)) _)
      (noNL_take hline _) _
  · exact h3

theorem tab_key_inv (h : BufInv st) : BufInv (tab_key cfg st) := by
  obtain ⟨h1, h2, h3⟩ := h
  have hline : noNL (st.lines.getD st.cursor_y []) := AllNoNL_getD h2 _
  refine ⟨?_, ?_, ?_⟩ <;>
    simp only [tab_key, writeLines_lines, writeLines_clipboard,
      writeLines_cursor_y, writeLines_cursor_x, move_cursor_lines,
      move_cursor_clipboard, save_history_lines, save_history_clipboard,
      save_history_cursor_y, save_history_cursor_x]
  · exact set_ne_nil h1 _
  · exact AllNoNL_set h2
      (noNL_append (noNL_append (noNL_take hline _) (noNL_replicate_space _))
        (noNL_drop hline _)) _
  · exact h3

theorem perform_copy_inv (h : BufInv st) : BufInv (perform_copy st) := by
  obtain ⟨h1, h2, h3⟩ := h
  unfold perform_copy
  split
  · exact ⟨h1, h2, h3⟩
  case _ s0 s1 e0 e1 _ =>
    refine ⟨h1, h2, ?_⟩
    show AllNoNL _
    split
    · exact AllNoNL_cons (noNL_pySlice (AllNoNL_getD h2 _) _ _) AllNoNL_nil
    · exact AllNoNL_cons (noNL_drop (AllNoNL_getD h2 _) _)
        (AllNoNL_append (AllNoNL_pySlice h2 _ _)
          (AllNoNL_cons (noNL_take (AllNoNL_getD h2 _) _) AllNoNL_nil))

theorem perform_cut_inv (h : BufInv st) : BufInv (perform_cut cfg st) := by
  obtain ⟨h1, h2, h3⟩ := h
  have hcopy := @perform_copy_inv (save_history cfg false st)
    (@BufInv_save_history cfg st false |>.mpr ⟨h1, h2, h3⟩)
  obtain ⟨hc1, hc2, hc3⟩ := hcopy
  have hcl : (perform_copy (save_history cfg false st)).lines = st.lines := by
    simp
  rw [hcl] at hc1 hc2
  unfold perform_cut
  dsimp only
  rw [get_selection_range_save_history]
  split
  · -- no selection
    split
    · -- buffer non-empty: pop the cursor line
      refine ⟨?_, ?_, ?_⟩ <;>
        simp only [writeLines_lines, writeLines_clipboard, writeLines_cursor_y,
          move_cursor_lines, move_cursor_clipboard, save_history_lines,
          save_history_clipboard, save_history_cursor_y]
      · split
        next => simp
        next hne => exact hne
      · split
        next =>
          intro l hl
          simp only [List.mem_singleton] at hl
          exact hl ▸ noNL_nil
        next => exact AllNoNL_listRemove h2 _
      · split
        next => exact AllNoNL_cons (AllNoNL_getD h2 _) AllNoNL_nil
        next => exact AllNoNL_cons (AllNoNL_getD h2 _) AllNoNL_nil
    · exact BufInv_save_history.mpr ⟨h1, h2, h3⟩
  · -- selection
    refine ⟨?_, ?_, ?_⟩ <;>
      simp only [writeLines_lines, writeLines_clipboard, move_cursor_lines,
        move_cursor_clipboard, perform_copy_lines, save_history_lines,
        save_history_clipboard]
    · split
      · exact set_ne_nil hc1 _
      · exact set_ne_nil (take_append_drop_ne_nil hc1 _ _) _
    · split
      · exact AllNoNL_set hc2
          (noNL_append (noNL_take (AllNoNL_getD hc2 _) _)
            (noNL_drop (AllNoNL_getD hc2 _) _)) _
      · exact AllNoNL_set
          (AllNoNL_append (AllNoNL_take hc2 _) (AllNoNL_drop hc2 _))
          (noNL_append (noNL_take (AllNoNL_getD hc2 _) _)
            (noNL_drop (AllNoNL_getD hc2 _) _)) _
    · split
      · exact hc3
      · exact hc3

theorem perform_paste_inv (h : BufInv st) : BufInv (perform_paste cfg st) := by
  obtain ⟨h1, h2, h3⟩ := h
  unfold perform_paste
  split
  · exact ⟨h1, h2, h3⟩
  · refine ⟨?_, ?_, ?_⟩ <;>
      simp only [writeLines_lines, writeLines_clipboard, writeLines_cursor_y,
        writeLines_cursor_x, move_cursor_lines, move_cursor_clipboard,
        save_history_lines, save_history_clipboard, save_history_cursor_y,
        save_history_cursor_x]
    · split
      · exact set_ne_nil h1 _
      · exact listInsert_ne_nil _
    · have hline : noNL (st.lines.getD st.cursor_y []) := AllNoNL_getD h2 _
      split
      · exact AllNoNL_set h2
          (noNL_append (noNL_append (noNL_take hline _) (AllNoNL_getD h3 _))
            (noNL_drop hline _)) _
      · exact AllNoNL_listInsert
          (AllNoNL_insertBlock
            (AllNoNL_set h2
              (noNL_append (noNL_take hline _) (AllNoNL_getD h3 _)) _)
            (AllNoNL_dropLast (AllNoNL_drop h3 _)) _)
          (noNL_append (AllNoNL_getLastD h3) (noNL_drop hline _)) _
    · split
      · exact h3
      · exact h3

theorem insert_text_inv {t : List Char} (h : BufInv st) :
    BufInv (insert_text cfg t st) := by
  obtain ⟨h1, h2, h3⟩ := h
  have hparts : AllNoNL (splitOnNl t) := splitOnNl_noNL t
  have hline : noNL (st.lines.getD st.cursor_y []) := AllNoNL_getD h2 _
  unfold insert_text
  refine ⟨?_, ?_, ?_⟩ <;>
    simp only [writeLines_lines, writeLines_clipboard, writeLines_cursor_y,
      writeLines_cursor_x, move_cursor_lines, move_cursor_clipboard,
      save_history_lines, save_history_clipboard, save_history_cursor_y,
      save_history_cursor_x]
  · split
    · exact set_ne_nil h1 _
    · exact listInsert_ne_nil _
  · split
    · exact AllNoNL_set h2
        (noNL_append (noNL_append (noNL_take hline _) (AllNoNL_getD hparts _))
          (noNL_drop hline _)) _
    · exact AllNoNL_listInsert
        (AllNoNL_insertBlock
          (AllNoNL_set h2
            (noNL_append (noNL_take hline _) (AllNoNL_getD hparts _)) _)
          (AllNoNL_dropLast (AllNoNL_drop hparts _)) _)
        (noNL_append (AllNoNL_getLastD hparts) (noNL_drop hline _)) _
  · split
    · exact h3
    · exact h3

theorem backspace_key_inv (h : BufInv st) : BufInv (backspace_key cfg st) := by
  obtain ⟨h1, h2, h3⟩ := h
  have hline : noNL (st.lines.getD st.cursor_y []) := AllNoNL_getD h2 _
  unfold backspace_key
  split
  · exact perform_cut_inv ⟨h1, h2, h3⟩
  · split
    · refine ⟨?_, ?_, ?_⟩ <;>
        simp only [writeLines_lines, writeLines_clipboard, writeLines_cursor_y,
          writeLines_cursor_x, move_cursor_lines, move_cursor_clipboard,
          save_history_lines, save_history_clipboard, save_history_cursor_y,
          save_history_cursor_x]
      · exact set_ne_nil h1 _
      · exact AllNoNL_set h2
          (noNL_append (noNL_take hline _) (noNL_drop hline _)) _
      · exact h3
    · split
      case _ hy =>
        refine ⟨?_, ?_, ?_⟩ <;>
          simp only [writeLines_lines, writeLines_clipboard,
            writeLines_cursor_y, writeLines_cursor_x, move_cursor_lines,
            move_cursor_clipboard, save_history_lines, save_history_clipboard,
            save_history_cursor_y, save_history_cursor_x]
        · exact listRemove_ne_nil_of_pos (set_ne_nil h1 _) hy
        · exact AllNoNL_listRemove
            (AllNoNL_set h2
              (noNL_append (AllNoNL_getD h2 _) (AllNoNL_getD h2 _)) _) _
        · exact h3
      · exact ⟨h1, h2, h3⟩

theorem delete_line_inv (h : BufInv st) : BufInv (delete_line cfg st) := by
  obtain ⟨h1, h2, h3⟩ := h
  unfold delete_line
  split
  · exact ⟨h1, h2, h3⟩
  · dsimp only
    split
    case _ hlen =>
      refine ⟨?_, ?_, ?_⟩ <;>
        simp only [writeLines_lines, writeLines_clipboard, writeLines_cursor_y,
          move_cursor_lines, move_cursor_clipboard, save_history_lines,
          save_history_clipboard, save_history_cursor_y]
      · exact listRemove_ne_nil_of_two (by simpa using hlen) _
      · exact AllNoNL_listRemove h2 _
      · exact h3
    · split
      · refine ⟨?_, ?_, ?_⟩ <;>
          simp only [writeLines_lines, writeLines_clipboard, move_cursor_lines,
            move_cursor_clipboard, save_history_lines, save_history_clipboard]
        · exact set_ne_nil h1 _
        · exact AllNoNL_set h2 noNL_nil _
        · exact h3
      · refine ⟨?_, ?_, ?_⟩ <;>
          simp only [save_history_lines, save_history_clipboard]
        · exact h1
        · exact h2
        · exact h3

theorem delete_range_inv {y1 x1 y2 x2 : Nat} (h : BufInv st) :
    BufInv (delete_range cfg y1 x1 y2 x2 st) := by
  obtain ⟨h1, h2, h3⟩ := h
  unfold delete_range
  split
  · dsimp only
    split
    · refine ⟨?_, ?_, ?_⟩ <;>
        simp only [writeLines_lines, writeLines_clipboard, move_cursor_lines,
          move_cursor_clipboard, save_history_lines, save_history_clipboard]
      · exact set_ne_nil h1 _
      · exact AllNoNL_set h2
          (noNL_append (noNL_take (AllNoNL_getD h2 _) _)
            (noNL_drop (AllNoNL_getD h2 _) _)) _
      · exact h3
    · refine ⟨?_, ?_, ?_⟩ <;>
        simp only [writeLines_lines, writeLines_clipboard, move_cursor_lines,
          move_cursor_clipboard, save_history_lines, save_history_clipboard]
      · exact set_ne_nil (take_append_drop_ne_nil h1 _ _) _
      · exact AllNoNL_set
          (AllNoNL_append (AllNoNL_take h2 _) (AllNoNL_drop h2 _))
          (noNL_append (noNL_take (AllNoNL_getD h2 _) _)
            (noNL_drop (AllNoNL_getD h2 _) _)) _
      · exact h3
  · exact ⟨h1, h2, h3⟩

theorem replace_text_inv {y sx ex : Nat} {t : Line} (h : BufInv st)
    (ht : '\n' ∉ t) : BufInv (replace_text cfg y sx ex t st) := by
  obtain ⟨h1, h2, h3⟩ := h
  unfold replace_text
  split
  · refine ⟨?_, ?_, ?_⟩ <;>
      simp only [writeLines_lines, writeLines_clipboard, move_cursor_lines,
        move_cursor_clipboard, save_history_lines, save_history_clipboard]
    · exact set_ne_nil h1 _
    · exact AllNoNL_set h2
        (noNL_append (noNL_append (noNL_take (AllNoNL_getD h2 _) _) ht)
          (noNL_drop (AllNoNL_getD h2 _) _)) _
    · exact h3
  · exact ⟨h1, h2, h3⟩

end OpInvariance

section SearchLemmas

theorem findFrom_some {pat line : Line} {pos m : Nat}
    (h : findFrom pat line pos = some m) :
    pos ≤ m ∧ m ≤ line.length ∧ pat.isPrefixOf (line.drop m) = true := by
  unfold findFrom at h
  have hm := List.mem_of_mem_head? (Option.mem_def.mpr h)
  rcases List.mem_filter.mp hm with ⟨hr, hp⟩
  rw [List.mem_range] at hr
  simp only [Bool.and_eq_true, decide_eq_true_eq] at hp
  exact ⟨hp.1, by omega, hp.2⟩

theorem findFrom_none {pat line : Line} {pos : Nat}
    (h : findFrom pat line pos = none) :
    ∀ i, pos ≤ i → i ≤ line.length →
      ¬ pat.isPrefixOf (line.drop i) = true := by
  unfold findFrom at h
  rw [List.head?_eq_none_iff] at h
  intro i h1 h2 hp
  have hmem : i ∈ (List.range (line.length + 1)).filter
      (fun j => decide (pos ≤ j) && pat.isPrefixOf (line.drop j)) :=
    List.mem_filter.mpr ⟨List.mem_range.mpr (by omega), by simp [h1, hp]⟩
  rw [h] at hmem
  simp at hmem

theorem scanLines_none {pat : Line} {lines : List Line} {is : List Nat}
    (h : scanLines pat lines is = none) :
    ∀ i ∈ is, findFrom pat (lines.getD i []) 0 = none := by
  induction is with
  | nil => simp
  | cons j js ih =>
    intro i hi
    unfold scanLines at h
    cases hf : findFrom pat (lines.getD j []) 0 with
    | some m => rw [hf] at h; cases h
    | none =>
      rw [hf] at h
      rcases List.mem_cons.mp hi with rfl | hmem
      · exact hf
      · exact ih h i hmem

theorem scanWrap_none {pat : Line} {lines : List Line} {sy sx : Nat}
    {is : List Nat} (h : scanWrap pat lines sy sx is = none) :
    ∀ i ∈ is,
      (i ≠ sy → findFrom pat (lines.getD i []) 0 = none) ∧
      (i = sy → findFrom pat (lines.getD i []) 0 = none ∨
        ∃ m, findFrom pat (lines.getD i []) 0 = some m ∧ sx < m) := by
  induction is with
  | nil => simp
  | cons j js ih =>
    intro i hi
    unfold scanWrap at h
    cases hf : findFrom pat (lines.getD j []) 0 with
    | some m =>
      simp only [hf] at h
      by_cases hj : j = sy
      · rw [if_pos hj] at h
        by_cases hm : m ≤ sx
        · rw [if_pos hm] at h; exact absurd h (by simp)
        · rw [if_neg hm] at h
          rcases List.mem_cons.mp hi with rfl | hmem
          · exact ⟨fun hne => absurd hj hne,
              fun _ => Or.inr ⟨m, hf, by omega⟩⟩
          · exact ih h i hmem
      · rw [if_neg hj] at h; exact absurd h (by simp)
    | none =>
      simp only [hf] at h
      rcases List.mem_cons.mp hi with rfl | hmem
      · exact ⟨fun _ => hf, fun _ => Or.inl hf⟩
      · exact ih h i hmem

end SearchLemmas

section SpliceLemmas

theorem set_listInsert_split {α : Type} {l : List α} {y : Nat}
    (hy : y < l.length) (a b : α) :
    (listInsert l (y + 1) b).set y a =
      l.take y ++ a :: b :: l.drop (y + 1) := by
  induction l generalizing y with
  | nil => simp at hy
  | cons c rest ih =>
    cases y with
    | zero => simp [listInsert]
    | succ n =>
      have hn : n < rest.length := by simpa using hy
      have e1 : listInsert (c :: rest) (n + 2) b =
          c :: listInsert rest (n + 1) b := by
        simp [listInsert]
      rw [e1, List.set_cons_succ, ih hn]
      simp

theorem length_splice {α : Type} {l : List α} {y : Nat} (hy : y < l.length)
    (a b : α) :
    (l.take y ++ a :: b :: l.drop (y + 1)).length = l.length + 1 := by
  simp only [List.length_append, List.length_take, List.length_cons,
    List.length_drop]
  omega

theorem getD_splice {α : Type} {l : List α} {y : Nat} (hy : y < l.length)
    (a b d : α) :
    (l.take y ++ a :: b :: l.drop (y + 1)).getD (y + 1) d = b := by
  induction l generalizing y with
  | nil => simp at hy
  | cons c rest ih =>
    cases y with
    | zero => simp
    | succ n =>
      have hn : n < rest.length := by simpa using hy
      simpa using ih hn

theorem foldl_add_eq (f : Char → Nat) (base : Nat) (l : List Char) :
    l.foldl (fun acc ch => acc + f ch) base = base + (l.map f).sum := by
  induction l generalizing base with
  | nil => simp
  | cons c cs ih => simp [ih, Nat.add_assoc]

theorem take_clamp {α : Type} (l : List α) (n : Nat) :
    l.take n = l.take (min n l.length) := by
  by_cases h : n ≤ l.length
  · rw [Nat.min_eq_left h]
  · rw [Nat.min_eq_right (by omega), List.take_length,
      List.take_of_length_le (by omega)]

theorem drop_clamp {α : Type} (l : List α) (n : Nat) :
    l.drop n = l.drop (min n l.length) := by
  by_cases h : n ≤ l.length
  · rw [Nat.min_eq_left h]
  · rw [Nat.min_eq_right (by omega), List.drop_length,
      List.drop_eq_nil_of_le (by omega)]

end SpliceLemmas

section CursorLemmas

theorem listInsert_length {α : Type} (l : List α) (i : Nat) (v : α) :
    (listInsert l i v).length = l.length + 1 := by
  simp only [listInsert, List.length_append, List.length_take,
    List.length_cons, List.length_drop]
  omega

theorem getD_set_self {α : Type} {l : List α} {i : Nat} (h : i < l.length)
    (v d : α) : (l.set i v).getD i d = v := by
  induction l generalizing i with
  | nil => simp at h
  | cons c rest ih =>
    cases i with
    | zero => simp
    | succ n => simpa using ih (by simpa using h)

theorem move_cursor_spec (st : EState) (y x : Nat) (u c : Bool)
    (hy : y < st.lines.length) :
    (move_cursor st (y : Int) (x : Int) u c).cursor_y = y ∧
    (move_cursor st (y : Int) (x : Int) u c).cursor_x =
      min x (st.lines.getD y []).length := by
  unfold move_cursor
  dsimp only
  have e1 : (max 0 (min (y : Int) ((st.lines.length : Int) - 1))).toNat = y := by
    omega
  rw [e1]
  have e2 : (max 0 (min (x : Int)
      ((st.lines.getD y []).length : Int))).toNat =
      min x (st.lines.getD y []).length := by
    omega
  rw [e2]
  constructor
  · rw [if_neg]
    intro hc
    omega
  · rw [if_neg]
    intro hc
    omega

end CursorLemmas

section SaveHistoryInitLemma

theorem save_history_fields_init (cfg : Config) (snap : Snapshot)
    (history : List Snapshot) (hidx : Nat) (al : Option Nat) (modif : Bool)
    (hlim : 0 < cfg.history_limit) :
    (save_history_fields cfg true snap history hidx al modif).2.2.2 =
        modif ∧
    (save_history_fields cfg true snap history hidx al
        modif).1.getLast? = some snap ∧
    (save_history_fields cfg true snap history hidx al modif).2.1 + 1 =
      (save_history_fields cfg true snap history hidx al modif).1.length := by
  unfold save_history_fields
  rw [if_neg (by simp)]
  dsimp only
  set H := if hidx + 1 < history.length then history.take (hidx + 1)
    else history with hH
  by_cases hover : cfg.history_limit < (H ++ [snap]).length
  · simp only [if_pos hover]
    have hH1 : 1 ≤ H.length := by
      simp only [List.length_append, List.length_cons, List.length_nil]
        at hover
      omega
    refine ⟨rfl, ?_, ?_⟩
    · rw [List.drop_append_of_le_length hH1, List.getLast?_concat]
    · simp only [List.length_drop, List.length_append, List.length_cons,
        List.length_nil]
      omega
  · simp only [if_neg hover]
    refine ⟨rfl, List.getLast?_concat H, ?_⟩
    simp only [List.length_append, List.length_cons, List.length_nil]
    omega

end SaveHistoryInitLemma

/-- C1: the claim says undo after a single mutating operation restores the
pre-operation buffer and `redo(undo(x)) = x` for every reachable state.
The code records a snapshot only *before* each mutation, so the
post-operation content is never in the history: on a fresh buffer, typing
'a' and pressing undo reports "Nothing to undo." and leaves the buffer at
the post-operation content (not the pre-operation empty line), and after
typing 'a' then 'b', undo followed by redo yields a single line 'a', not
the pre-undo content 'ab'. -/
theorem c1_undo_redo_loses_state :
    demo0.lines = [[]] ∧
    demo1.lines = [['a']] ∧
    (undo demo1).lines = [['a']] ∧
    (undo demo1).status_message = "Nothing to undo." ∧
    (undo demo1).lines ≠ demo0.lines ∧
    demo2.lines = [['a', 'b']] ∧
    (redo (undo demo2)).lines = [['a']] ∧
    (redo (undo demo2)).lines ≠ demo2.lines := by
  decide

/-- C2 counterexample: the claim as stated covers plugin replace_text, but
replace_text splices its argument into a single line without splitting it
on line breaks, so a replacement text containing a newline puts a newline
inside a buffer line, violating the invariant. -/
theorem c2_replace_text_newline_cex :
    BufInv demoAB ∧
    ¬ BufInv (applyOp defaultConfig
      (EditOp.replaceRange 0 0 0 ['x', '\n', 'y']) demoAB) := by
  constructor
  · decide
  · decide

/-- C2 (amended): every listed buffer operation preserves the invariant
"at least one line and no line contains a line-break character" —
unconditionally for Enter, Tab, Backspace, delete-line, cut, paste,
multi-line insert and delete_range, and provided that a self-inserted
character is not a line break (the key decoder guarantees this) and that
the text handed to replace_text contains none (the source never splits
it). -/
theorem c2_buffer_invariant_preserved (cfg : Config) (op : EditOp)
    (st : EState) (h : BufInv st) (hok : OpOK op) :
    BufInv (applyOp cfg op st) := by
  cases op with
  | charKey c => exact insert_char_inv h hok
  | enter => exact enter_key_inv h
  | tab => exact tab_key_inv h
  | backspace => exact backspace_key_inv h
  | delLine => exact delete_line_inv h
  | cut => exact perform_cut_inv h
  | paste => exact perform_paste_inv h
  | insertAt t => exact insert_text_inv h
  | delRange y1 x1 y2 x2 => exact delete_range_inv h
  | replaceRange y sx ex t => exact replace_text_inv h hok

theorem c2_buffer_invariant_preserved_witness :
    BufInv demoAB ∧ OpOK EditOp.enter ∧
      BufInv (applyOp defaultConfig EditOp.enter demoAB) :=
  ⟨by decide, by decide,
    c2_buffer_invariant_preserved defaultConfig EditOp.enter demoAB
      (by decide) (by decide)⟩

/-- C3: the claim says a stored snapshot is immutable once recorded.  But
apply_history installs the snapshot's line list into the buffer without
copying, so the buffer aliases the history entry; the next in-place edit
then rewrites the stored snapshot.  Trace: open an empty buffer, type 'a',
type 'b', undo (restoring and aliasing the first snapshot, recorded as a
single empty line), then type 'c': the first history entry now reads 'c'
instead of the empty line it was recorded with. -/
theorem c3_snapshot_aliasing_mutation :
    (demo3.history.getD 0 ([], 0, 0)).1 = [[]] ∧
    demo3.aliasIdx = some 0 ∧
    demo4.history = [([['c']], 0, 0)] ∧
    (demo4.history.getD 0 ([], 0, 0)).1 ≠
      (demo3.history.getD 0 ([], 0, 0)).1 := by
  decide

/-- C5 counterexample: the claim says out-of-range line arguments are
clamped to the nearest valid position and the operation performed there.
In the code, replace_text and delete_range instead return with no effect
at all for an out-of-range line index: on the two-line buffer, replacing
at line 7 changes nothing, while the operation at the nearest valid line 1
would have. -/
theorem c5_out_of_range_line_is_noop_cex :
    replace_text defaultConfig 7 0 2 ['x'] demoAB = demoAB ∧
    (replace_text defaultConfig 1 0 2 ['x'] demoAB).lines =
      [['a', 'b'], ['x']] ∧
    (replace_text defaultConfig 7 0 2 ['x'] demoAB).lines ≠
      (replace_text defaultConfig 1 0 2 ['x'] demoAB).lines ∧
    delete_range defaultConfig 5 0 0 1 demoAB = demoAB := by
  decide

/-- C5 (amended): line-index arguments are validated instead of clamped:
delete_range and replace_text return with the state entirely unchanged —
no history record, no buffer or cursor change — when a line index is
outside the buffer.  Column arguments are clamped where the source clamps
them: replace_text clamps both columns and delete_range's same-line case
clamps and orders its columns (for either, replacing a column by its
clamped value never changes the result).  delete_range's multi-line case
slices the boundary lines with the raw columns — for the buffer content
this is equivalent to clamping (the resulting lines equal the clamped
call's) — but hands the raw start column to move_cursor, which clamps it
against the joined line, so the final cursor column can exceed what
pre-clamped arguments give: on the two-line buffer, deleting from
(0, 5) to (1, 0) parks the cursor at column 4 where the pre-clamped
(0, 2) to (1, 0) parks it at column 2.  (insert_text takes no line
argument; it operates at the cursor, which move_cursor keeps in
range.) -/
theorem c5_validation_policy (cfg : Config) (st : EState) (y sx ex : Nat)
    (t : Line) (y1 x1 y2 x2 : Nat) :
    (st.lines.length ≤ y → replace_text cfg y sx ex t st = st) ∧
    (st.lines.length ≤ y1 ∨ st.lines.length ≤ y2 →
      delete_range cfg y1 x1 y2 x2 st = st) ∧
    (replace_text cfg y sx ex t st =
      replace_text cfg y (min sx (st.lines.getD y []).length)
        (min ex (st.lines.getD y []).length) t st) ∧
    (delete_range cfg y x1 y x2 st =
      delete_range cfg y (min x1 (st.lines.getD y []).length) y
        (min x2 (st.lines.getD y []).length) st) ∧
    (y1 < y2 →
      (delete_range cfg y1 x1 y2 x2 st).lines =
        (delete_range cfg y1 (min x1 (st.lines.getD y1 []).length) y2
          (min x2 (st.lines.getD y2 []).length) st).lines) ∧
    ((delete_range defaultConfig 0 5 1 0 demoAB).lines =
        (delete_range defaultConfig 0 2 1 0 demoAB).lines ∧
      (delete_range defaultConfig 0 5 1 0 demoAB).cursor_x = 4 ∧
      (delete_range defaultConfig 0 2 1 0 demoAB).cursor_x = 2) := by
  refine ⟨?_, ?_, ?_, ?_, ?_, by decide, by decide, by decide⟩
  · intro hy
    unfold replace_text
    rw [if_neg (by omega)]
  · intro hy
    unfold delete_range
    rw [if_neg (by omega)]
  · unfold replace_text
    by_cases hy : y < st.lines.length
    · rw [if_pos hy, if_pos hy]
      dsimp only
      simp only [save_history_lines, Nat.min_assoc, Nat.min_self]
    · rw [if_neg hy, if_neg hy]
  · unfold delete_range
    by_cases hg : y < st.lines.length ∧ y < st.lines.length
    · rw [if_pos hg, if_pos hg]
      dsimp only
      have hyy : y = y := rfl
      rw [if_pos hyy, if_pos hyy]
      simp only [save_history_lines, Nat.min_assoc, Nat.min_self]
    · rw [if_neg hg, if_neg hg]
  · intro hyy
    unfold delete_range
    by_cases hg : y1 < st.lines.length ∧ y2 < st.lines.length
    · rw [if_pos hg, if_pos hg]
      dsimp only
      rw [if_neg (by omega : ¬ y1 = y2), if_neg (by omega : ¬ y1 = y2)]
      dsimp only
      rw [if_neg (by omega : ¬ y2 < y1), if_neg (by omega : ¬ y2 < y1)]
      dsimp only
      simp only [move_cursor_lines, writeLines_lines, save_history_lines]
      rw [← take_clamp, ← drop_clamp]
    · rw [if_neg hg, if_neg hg]

theorem c5_validation_policy_witness :
    demoAB.lines.length ≤ 7 ∧
    replace_text defaultConfig 7 0 0 [] demoAB = demoAB :=
  ⟨by decide,
    (c5_validation_policy defaultConfig demoAB 7 0 0 [] 0 0 0 0).1
      (by decide)⟩

/-- C7 counterexample: the claim says width 2 exactly for wide or
fullwidth classifications and 1 otherwise; the code also gives width 2 to
the Ambiguous class.  U+00A7 SECTION SIGN is classified Ambiguous, so the
code renders it two cells wide while the spec's rule gives one. -/
theorem c7_ambiguous_width_cex :
    sampleEAW '§' = EAW.A ∧
    get_char_width sampleEAW '§' = 2 ∧
    spec_char_width sampleEAW '§' = 1 ∧
    get_char_width sampleEAW '§' ≠ spec_char_width sampleEAW '§' := by
  decide

/-- C7 (amended): the display-width function returns 2 exactly when the
East-Asian-width classification is fullwidth, wide, or ambiguous, and 1
for every other character; the cursor's screen column equals the base
column plus the sum of these per-character widths over the characters
from the horizontal scroll offset up to the cursor column. -/
theorem c7_width_and_screen_mapping :
    (∀ (eaw : Char → EAW) (c : Char),
      (get_char_width eaw c = 2 ↔
        (eaw c = EAW.F ∨ eaw c = EAW.W ∨ eaw c = EAW.A)) ∧
      (get_char_width eaw c = 1 ↔
        ¬(eaw c = EAW.F ∨ eaw c = EAW.W ∨ eaw c = EAW.A))) ∧
    ∀ (eaw : Char → EAW) (base : Nat) (line : Line) (o x : Nat),
      cursor_screen_x eaw base line o x =
        base + ((pySlice line o x).map (get_char_width eaw)).sum := by
  constructor
  · intro eaw c
    constructor
    · unfold get_char_width
      split <;> simp_all
    · unfold get_char_width
      split <;> simp_all
  · intro eaw base line o x
    unfold cursor_screen_x
    split
    · exact foldl_add_eq (get_char_width eaw) base (pySlice line o x)
    · have he : pySlice line o x = [] := by
        unfold pySlice
        refine List.drop_eq_nil_of_le ?_
        have := List.length_take_le x line
        omega
      simp [he]

/-- C8 counterexample: the claim says that after a read observes
end-of-file the panel transitions to an Exited state after which writes
are no-ops.  In the code the EOF read just returns False: the state is
unchanged, the master descriptor stays set, and a subsequent write still
issues an os.write to it. -/
theorem c8_eof_no_transition_cex :
    read_output (terminal_init true 3) ReadEvent.eof =
      (terminal_init true 3, false) ∧
    (terminal_init true 3).master_fd = some 3 ∧
    (write_input (terminal_init true 3) ['x'] false).2 = [(3, ['x'])] ∧
    (write_input (terminal_init true 3) ['x'] false).2 ≠ [] := by
  decide

/-- C8 (amended): a failed write to the pty master is swallowed — the
caller sees the same result whether or not os.write raises; a read that
observes end-of-file returns False and leaves the panel state unchanged
(there is no Exited transition, and later writes still attempt an
os.write, their errors likewise swallowed); when the platform lacks pty
support the panel starts with no master descriptor and a single static
informational line, and every write is then a no-op that issues no
os.write at all. -/
theorem c8_pty_write_read_policy :
    (∀ (st : TermState) (d : Line),
      write_input st d true = write_input st d false) ∧
    (∀ st : TermState, read_output st ReadEvent.eof = (st, false)) ∧
    ∀ fd : Nat,
      (terminal_init false fd).master_fd = none ∧
      (terminal_init false fd).lines =
        ["Terminal not supported on this OS (requires pty).".toList] ∧
      ∀ (d : Line) (b : Bool),
        write_input (terminal_init false fd) d b =
          (terminal_init false fd, []) := by
  refine ⟨?_, ?_, ?_⟩
  · intro st d
    unfold write_input
    cases hm : st.master_fd <;> rfl
  · intro st
    unfold read_output
    cases hm : st.master_fd <;> rfl
  · intro fd
    refine ⟨rfl, rfl, ?_⟩
    intro d b
    cases b <;> rfl

/-- C4 counterexample: the claim says a successful save leaves a fresh
history with exactly one snapshot.  In the code, save runs
`save_history(init=True)`, which *appends* the saved content to the
existing history: saving a freshly opened (one-snapshot) buffer leaves a
two-entry history, not one. -/
theorem c4_save_keeps_old_history_cex :
    (save_file_success defaultConfig demo0).history.length = 2 ∧
    (save_file_success defaultConfig demo0).history.length ≠ 1 := by
  decide

/-- C4 (amended): after a successful save the modified flag is cleared
and a snapshot of the saved content (with the cursor) is appended as the
history's new last entry — after truncating any redo entries beyond the
current index and enforcing the cap — with cursor_index pointing at it;
the earlier snapshots are kept, so the history is not reset to a single
entry. -/
theorem c4_save_appends_final_snapshot (cfg : Config) (st : EState)
    (hlim : 0 < cfg.history_limit) :
    (save_file_success cfg st).modified = false ∧
    (save_file_success cfg st).history.getLast? =
      some (st.lines, st.cursor_y, st.cursor_x) ∧
    (save_file_success cfg st).history_index + 1 =
      (save_file_success cfg st).history.length := by
  have h := save_history_fields_init cfg (st.lines, st.cursor_y, st.cursor_x)
    st.history st.history_index st.aliasIdx false hlim
  unfold save_file_success save_history
  dsimp only
  exact ⟨h.1, h.2.1, h.2.2⟩

theorem c4_save_appends_final_snapshot_witness :
    0 < defaultConfig.history_limit ∧
    ((save_file_success defaultConfig demo2).modified = false ∧
      (save_file_success defaultConfig demo2).history.getLast? =
        some (demo2.lines, demo2.cursor_y, demo2.cursor_x) ∧
      (save_file_success defaultConfig demo2).history_index + 1 =
        (save_file_success defaultConfig demo2).history.length) :=
  ⟨by decide, c4_save_appends_final_snapshot defaultConfig demo2 (by decide)⟩

/-- C6 counterexample: the claim says a wrapped search never reports the
starting cursor position itself as a match.  On the one-line buffer
"foo" with the cursor at line 0 column 0, searching "foo" wraps and
reports exactly (0, 0) — the starting position — because the wrap scan
accepts a first match whose start column is less than *or equal to* the
start column. -/
theorem c6_wrap_reports_start_cex :
    search_result ['f', 'o', 'o'] [['f', 'o', 'o']] 0 0 = some (0, 0) := by
  decide

/-- C6 (amended): search starts one position after the cursor, scans
forward line-by-line to the end of the buffer, then wraps from line 0
back to the start line; on the spec's example (buffer foo/bar/foo,
cursor at line 2 column 0) it finds line 0, and it reports not-found
only when no line of the buffer matches at all — but on the start line
the wrap accepts the line's first match whenever its start column is at
most the starting column, including the starting position itself. -/
theorem c6_search_scan_order :
    (search_result ['f', 'o', 'o']
      [['f', 'o', 'o'], ['b', 'a', 'r'], ['f', 'o', 'o']] 2 0 =
        some (0, 0)) ∧
    ∀ (pat : Line) (lines : List Line) (sy sx : Nat),
      search_result pat lines sy sx = none →
      ∀ i < lines.length, findFrom pat (lines.getD i []) 0 = none := by
  constructor
  · decide
  · intro pat lines sy sx h i hi
    unfold search_result at h
    split at h
    · exact absurd h (by simp)
    · split at h
      · exact absurd h (by simp)
      · rename_i hx1 h1 hx2 h2
        rcases Nat.lt_trichotomy i sy with hlt | heq | hgt
        · exact (scanWrap_none h i
            (by rw [List.mem_range]; omega)).1 (by omega)
        · subst heq
          have hw := (scanWrap_none h i (by rw [List.mem_range]; omega)).2 rfl
          rcases hw with hn | ⟨m, hm, hsx⟩
          · exact hn
          · obtain ⟨_, hmlen, hpref⟩ := findFrom_some hm
            exact absurd hpref (findFrom_none h1 m (by omega) hmlen)
        · exact scanLines_none h2 i (by rw [List.mem_range'_1]; omega)

theorem c6_search_scan_order_witness :
    search_result ['z'] [['a']] 0 0 = none ∧
    findFrom ['z'] (([['a']] : List Line).getD 0 []) 0 = none :=
  ⟨by decide,
    c6_search_scan_order.2 ['z'] [['a']] 0 0 (by decide) 0 (by decide)⟩

/-- C10: flipping use_soft_tabs changes nothing — no modelled operation
reads it, so any operation produces an identical state under either
value — and the Tab handler always inserts exactly tab_width space
characters at the cursor, moving the cursor past them. -/
theorem c10_soft_tabs_irrelevant :
    (∀ (cfg : Config) (b : Bool) (op : EditOp) (st : EState),
      applyOp { cfg with use_soft_tabs := b } op st = applyOp cfg op st) ∧
    ∀ (cfg : Config) (st : EState),
      st.cursor_y < st.lines.length →
      (tab_key cfg st).lines = st.lines.set st.cursor_y
        ((st.lines.getD st.cursor_y []).take st.cursor_x ++
          List.replicate cfg.tab_width ' ' ++
          (st.lines.getD st.cursor_y []).drop st.cursor_x) ∧
      (tab_key cfg st).cursor_y = st.cursor_y ∧
      (st.cursor_x ≤ (st.lines.getD st.cursor_y []).length →
        (tab_key cfg st).cursor_x = st.cursor_x + cfg.tab_width) := by
  constructor
  · intro cfg b op st
    cases cfg
    cases op <;> rfl
  · intro cfg st hy
    have hlines : (tab_key cfg st).lines = st.lines.set st.cursor_y
        ((st.lines.getD st.cursor_y []).take st.cursor_x ++
          List.replicate cfg.tab_width ' ' ++
          (st.lines.getD st.cursor_y []).drop st.cursor_x) := by
      simp only [tab_key, writeLines_lines, writeLines_cursor_y,
        writeLines_cursor_x, move_cursor_lines, save_history_lines,
        save_history_cursor_y, save_history_cursor_x, List.length_replicate]
    refine ⟨hlines, ?_, ?_⟩
    all_goals
      have hkey : (tab_key cfg st).cursor_y =
            (move_cursor (writeLines (save_history cfg false st)
              ((tab_key cfg st).lines)) (st.cursor_y : Int)
              ((st.cursor_x + cfg.tab_width : Nat) : Int) true false).cursor_y ∧
          (tab_key cfg st).cursor_x =
            (move_cursor (writeLines (save_history cfg false st)
              ((tab_key cfg st).lines)) (st.cursor_y : Int)
              ((st.cursor_x + cfg.tab_width : Nat) : Int) true false).cursor_x := by
        rw [hlines]
        constructor <;>
          simp only [tab_key, writeLines_lines, writeLines_cursor_y,
            writeLines_cursor_x, move_cursor_lines, save_history_lines,
            save_history_cursor_y, save_history_cursor_x,
            List.length_replicate] <;>
          norm_cast
    · rw [hkey.1]
      have hy2 : st.cursor_y <
          (writeLines (save_history cfg false st)
            ((tab_key cfg st).lines)).lines.length := by
        simp only [writeLines_lines, hlines, List.length_set]
        exact hy
      exact (move_cursor_spec _ _ _ _ _ hy2).1
    · intro hx
      rw [hkey.2]
      have hy2 : st.cursor_y <
          (writeLines (save_history cfg false st)
            ((tab_key cfg st).lines)).lines.length := by
        simp only [writeLines_lines, hlines, List.length_set]
        exact hy
      rw [(move_cursor_spec _ _ _ _ _ hy2).2]
      simp only [writeLines_lines, hlines]
      rw [getD_set_self (by simpa using hy)]
      simp only [List.length_append, List.length_take,
        List.length_replicate, List.length_drop]
      omega

theorem c10_soft_tabs_irrelevant_witness :
    demoAB.cursor_y < demoAB.lines.length ∧
    (tab_key defaultConfig demoAB).lines = demoAB.lines.set demoAB.cursor_y
      ((demoAB.lines.getD demoAB.cursor_y []).take demoAB.cursor_x ++
        List.replicate defaultConfig.tab_width ' ' ++
        (demoAB.lines.getD demoAB.cursor_y []).drop demoAB.cursor_x) :=
  ⟨by decide,
    ((c10_soft_tabs_irrelevant.2 defaultConfig demoAB) (by decide)).1⟩

/-- C9: pressing Enter at line y, column x is an auto-indenting split:
line y becomes the prefix up to the cursor, the new line y+1 is the
original line's leading-whitespace indent followed by the tail from the
cursor, and the cursor lands on the new line just after the indent. -/
theorem c9_enter_auto_indent (cfg : Config) (st : EState)
    (hy : st.cursor_y < st.lines.length) :
    (enter_key cfg st).lines =
      st.lines.take st.cursor_y ++
        (st.lines.getD st.cursor_y []).take st.cursor_x ::
        ((st.lines.getD st.cursor_y []).takeWhile pyIsSpace ++
          (st.lines.getD st.cursor_y []).drop st.cursor_x) ::
        st.lines.drop (st.cursor_y + 1) ∧
    (enter_key cfg st).cursor_y = st.cursor_y + 1 ∧
    (enter_key cfg st).cursor_x =
      ((st.lines.getD st.cursor_y []).takeWhile pyIsSpace).length := by
  have hlines : (enter_key cfg st).lines =
      (listInsert st.lines (st.cursor_y + 1)
        ((st.lines.getD st.cursor_y []).takeWhile pyIsSpace ++
          (st.lines.getD st.cursor_y []).drop st.cursor_x)).set st.cursor_y
        ((st.lines.getD st.cursor_y []).take st.cursor_x) := by
    simp only [enter_key, writeLines_lines, writeLines_cursor_y,
      writeLines_cursor_x, move_cursor_lines, save_history_lines,
      save_history_cursor_y, save_history_cursor_x]
  have hsplice := set_listInsert_split hy
    ((st.lines.getD st.cursor_y []).take st.cursor_x)
    ((st.lines.getD st.cursor_y []).takeWhile pyIsSpace ++
      (st.lines.getD st.cursor_y []).drop st.cursor_x)
  have hkey : (enter_key cfg st).cursor_y =
        (move_cursor (writeLines (writeLines (save_history cfg false st)
          (listInsert st.lines (st.cursor_y + 1)
            ((st.lines.getD st.cursor_y []).takeWhile pyIsSpace ++
              (st.lines.getD st.cursor_y []).drop st.cursor_x)))
          ((enter_key cfg st).lines)) ((st.cursor_y + 1 : Nat) : Int)
          ((((st.lines.getD st.cursor_y []).takeWhile
            pyIsSpace).length : Nat) : Int) true false).cursor_y ∧
      (enter_key cfg st).cursor_x =
        (move_cursor (writeLines (writeLines (save_history cfg false st)
          (listInsert st.lines (st.cursor_y + 1)
            ((st.lines.getD st.cursor_y []).takeWhile pyIsSpace ++
              (st.lines.getD st.cursor_y []).drop st.cursor_x)))
          ((enter_key cfg st).lines)) ((st.cursor_y + 1 : Nat) : Int)
          ((((st.lines.getD st.cursor_y []).takeWhile
            pyIsSpace).length : Nat) : Int) true false).cursor_x := by
    rw [hlines]
    constructor <;>
      simp only [enter_key, writeLines_lines, writeLines_cursor_y,
        writeLines_cursor_x, move_cursor_lines, save_history_lines,
        save_history_cursor_y, save_history_cursor_x] <;>
      norm_cast
  have hy2 : st.cursor_y + 1 <
      (writeLines (writeLines (save_history cfg false st)
        (listInsert st.lines (st.cursor_y + 1)
          ((st.lines.getD st.cursor_y []).takeWhile pyIsSpace ++
            (st.lines.getD st.cursor_y []).drop st.cursor_x)))
        ((enter_key cfg st).lines)).lines.length := by
    simp only [writeLines_lines, hlines, List.length_set, listInsert_length]
    omega
  refine ⟨?_, ?_, ?_⟩
  · rw [hlines, hsplice]
  · rw [hkey.1, (move_cursor_spec _ _ _ _ _ hy2).1]
  · rw [hkey.2, (move_cursor_spec _ _ _ _ _ hy2).2]
    simp only [writeLines_lines, hlines, hsplice]
    rw [getD_splice hy]
    simp only [List.length_append]
    omega

theorem c9_enter_auto_indent_witness :
    demoAB.cursor_y < demoAB.lines.length ∧
    (enter_key defaultConfig demoAB).lines =
      demoAB.lines.take demoAB.cursor_y ++
        (demoAB.lines.getD demoAB.cursor_y []).take demoAB.cursor_x ::
        ((demoAB.lines.getD demoAB.cursor_y []).takeWhile pyIsSpace ++
          (demoAB.lines.getD demoAB.cursor_y []).drop demoAB.cursor_x) ::
        demoAB.lines.drop (demoAB.cursor_y + 1) :=
  ⟨by decide, (c9_enter_auto_indent defaultConfig demoAB (by decide)).1⟩

end Caffee
